import Mathlib

/-!
# Verification of the title-vault-extract OCR pipeline and field extractor

Shallow embedding of the repository's document pipeline
(`processPDFWithOCR`, src/unnamed/part_001), the canvas blank-raster
diagnostic (`isCanvasBlank`, src/unnamed/part_000), and the field
extraction / manual-edit / CSV-export logic
(`extractFieldsFromText`, `processDocument`, `handleFieldUpdate`,
`exportToCSV` in src/src/pages/ProcessContract.tsx).

JavaScript strings are modelled as `String` / `List Char`, JavaScript
numbers carrying OCR confidences as `ℚ`, and the regular-expression
patterns of the field extractor as terms of a small regex AST evaluated
by a backtracking matcher with JavaScript semantics (leftmost match,
alternatives tried in order, greedy quantifiers).
-/

namespace TitleVault

/-- JavaScript's `\s` character class (also the set trimmed by
`String.prototype.trim`): space, tab, line terminators, and the
Unicode space characters recognised by ECMAScript. -/
def jsWs (c : Char) : Bool :=
  c = ' ' || c = '\t' || c = '\n' || c = '\r' ||
  c.toNat = 0x0b || c.toNat = 0x0c || c.toNat = 0xa0 || c.toNat = 0x1680 ||
  (0x2000 ≤ c.toNat && c.toNat ≤ 0x200a) ||
  c.toNat = 0x2028 || c.toNat = 0x2029 || c.toNat = 0x202f ||
  c.toNat = 0x205f || c.toNat = 0x3000 || c.toNat = 0xfeff

/-- JavaScript `String.prototype.trim`: drop `\s` characters from both ends. -/
def jsTrim (l : List Char) : List Char :=
  ((l.dropWhile jsWs).reverse.dropWhile jsWs).reverse

/-! ## A small regex AST with JavaScript matching semantics

Only the features used by the extractor's patterns: character classes,
concatenation, ordered alternation, greedy option, and greedy counted
repetition of a character class.  Matching is continuation-passing
backtracking: alternatives are tried left to right and repetitions
longest-first, exactly the ECMAScript strategy, so the first success
found is the match a JavaScript engine would return. -/

inductive RE where
  | eps : RE
  | cls : (Char → Bool) → RE
  | cat : RE → RE → RE
  | alt : RE → RE → RE
  | opt : RE → RE
  | repCls : (Char → Bool) → Nat → Option Nat → RE

/-- Try consuming `n, n-1, …, lo` characters (already known to satisfy the
class) before running the continuation: greedy, longest first. -/
def tryCounts (lo : Nat) (l : List Char) (k : List Char → Option (List Char)) :
    Nat → Option (List Char)
  | 0 => if lo = 0 then k l else none
  | n + 1 =>
    if n + 1 < lo then none
    else
      match k (l.drop (n + 1)) with
      | some r => some r
      | none => tryCounts lo l k n

/-- Backtracking matcher: `matchCore re l k` tries to match `re` against a
prefix of `l` and runs `k` on the remainder, returning the first success in
JavaScript preference order.  The continuation result is the suffix left
after the whole match. -/
def matchCore : RE → List Char → (List Char → Option (List Char)) → Option (List Char)
  | .eps, l, k => k l
  | .cls p, l, k =>
    match l with
    | [] => none
    | c :: rest => if p c then k rest else none
  | .cat a b, l, k => matchCore a l (fun l2 => matchCore b l2 k)
  | .alt a b, l, k =>
    match matchCore a l k with
    | some r => some r
    | none => matchCore b l k
  | .opt a, l, k =>
    match matchCore a l k with
    | some r => some r
    | none => k l
  | .repCls p lo hi, l, k =>
    let maxRun := (l.takeWhile p).length
    let cap := match hi with | none => maxRun | some h => min h maxRun
    tryCounts lo l k cap

/-- Leftmost match: scan start positions left to right (as a JavaScript
regex `exec`/`String.match` does) and return the matched characters of the
first position where the pattern matches. -/
def findFirstMatch (re : RE) : List Char → Option (List Char)
  | [] =>
    match matchCore re [] some with
    | some _ => some []
    | none => none
  | c :: tail =>
    match matchCore re (c :: tail) some with
    | some rest => some ((c :: tail).take ((c :: tail).length - rest.length))
    | none => findFirstMatch re tail

/-- Models `String.prototype.replace` with a `g`-flagged pattern and empty
replacement: repeatedly delete the leftmost match, resuming after it
(advancing one character over empty matches). -/
def replaceAllAux (re : RE) : Nat → List Char → List Char
  | 0, l => l
  | fuel + 1, l =>
    match l with
    | [] => []
    | c :: tail =>
      match matchCore re (c :: tail) some with
      | some rest =>
        let n := (c :: tail).length - rest.length
        if n = 0 then c :: replaceAllAux re fuel tail
        else replaceAllAux re fuel ((c :: tail).drop n)
      | none => c :: replaceAllAux re fuel tail

def replaceAll (re : RE) (l : List Char) : List Char :=
  replaceAllAux re l.length l

/-- Models `String.prototype.replace` with a `^`-anchored `g`-flagged pattern and
empty replacement: since `^` (without `m`) only matches at index 0, at most
one replacement happens, stripping a matching prefix. -/
def stripStart (re : RE) (l : List Char) : List Char :=
  match matchCore re l some with
  | some rest => rest
  | none => l

/-! ### Pattern building blocks -/

/-- Case-insensitive literal (the `i` flag; all pattern literals in the
source are written in lower case). -/
def litCI (s : String) : RE :=
  s.data.foldr (fun c r => .cat (.cls (fun d => d.toLower = c)) r) .eps

/-- Ordered alternation of a list of alternatives. -/
def altL : List RE → RE
  | [] => .cls (fun _ => false)
  | [x] => x
  | x :: xs => .alt x (altL xs)

def star (p : Char → Bool) : RE := .repCls p 0 none
def plus (p : Char → Bool) : RE := .repCls p 1 none

def isDigit (c : Char) : Bool := '0' ≤ c && c ≤ '9'
def notNL (c : Char) : Bool := !(c = '\n' || c = '\r')
def colonWs (c : Char) : Bool := c = ':' || jsWs c
def digitComma (c : Char) : Bool := isDigit c || c = ','

/-! ## The extractor's patterns (ProcessContract.tsx, `extractFieldsFromText`)

Each definition transcribes one regex literal of the source. -/

/-- Models `(?:street|st|avenue|ave|road|rd|drive|dr|lane|ln|blvd|boulevard)` -/
def streetAlt : RE :=
  altL [litCI "street", litCI "st", litCI "avenue", litCI "ave", litCI "road",
        litCI "rd", litCI "drive", litCI "dr", litCI "lane", litCI "ln",
        litCI "blvd", litCI "boulevard"]

/-- Models `/(?:property|subject property|premises|located at|address)[:\s]+([^\n\r]+(?:street|…)[^\n\r]*)/gi` -/
def reAddr1 : RE :=
  .cat (altL [litCI "property", litCI "subject property", litCI "premises",
              litCI "located at", litCI "address"])
    (.cat (plus colonWs) (.cat (plus notNL) (.cat streetAlt (star notNL))))

/-- Models `/(\d+\s+[^\n\r]+(?:street|…)[^\n\r]*)/gi` -/
def reAddr2 : RE :=
  .cat (plus isDigit)
    (.cat (plus jsWs) (.cat (plus notNL) (.cat streetAlt (star notNL))))

/-- Models `/^(property|subject property|premises|located at|address)[:\s]+/gi`
(the strip applied to the address match). -/
def reAddrStrip : RE :=
  .cat (altL [litCI "property", litCI "subject property", litCI "premises",
              litCI "located at", litCI "address"])
    (plus colonWs)

/-- Models `[\d,]+(?:\.\d{2})?` (the amount part shared by the price patterns). -/
def amountRE : RE :=
  .cat (plus digitComma)
    (.opt (.cat (.cls (fun c => c = '.')) (.repCls isDigit 2 (some 2))))

/-- Models `/(?:purchase price|sale price|total price)[:\s]*\$?([\d,]+(?:\.\d{2})?)/gi` -/
def rePrice1 : RE :=
  .cat (altL [litCI "purchase price", litCI "sale price", litCI "total price"])
    (.cat (star colonWs) (.cat (.opt (.cls (fun c => c = '$'))) amountRE))

/-- Models `/\$\s*([\d,]+(?:\.\d{2})?)/g` -/
def rePrice2 : RE :=
  .cat (.cls (fun c => c = '$')) (.cat (star jsWs) amountRE)

/-- Models `/\$?([\d,]+(?:\.\d{2})?)/` — the inner pattern run on the outer
price/earnest match; the source takes capture group 1, i.e. the match
minus an optional leading `$`. -/
def reInnerPrice : RE :=
  .cat (.opt (.cls (fun c => c = '$'))) amountRE

/-- Capture group 1 of the inner price pattern on the leftmost match. -/
def innerPriceAmt (l : List Char) : Option (List Char) :=
  (findFirstMatch reInnerPrice l).map
    (fun m => if m.head? = some '$' then m.drop 1 else m)

/-- Models `/(?:buyer|purchaser)[:\s]+([^\n\r]+)/gi` -/
def reBuyer : RE :=
  .cat (altL [litCI "buyer", litCI "purchaser"]) (.cat (plus colonWs) (plus notNL))

/-- Models `/(?:buyer|purchaser)[:\s]+/gi` (the global strip on the buyer match). -/
def reBuyerStrip : RE :=
  .cat (altL [litCI "buyer", litCI "purchaser"]) (plus colonWs)

/-- Models `/(?:seller|vendor)[:\s]+([^\n\r]+)/gi` -/
def reSeller : RE :=
  .cat (altL [litCI "seller", litCI "vendor"]) (.cat (plus colonWs) (plus notNL))

/-- Models `/(?:seller|vendor)[:\s]+/gi` (the global strip on the seller match). -/
def reSellerStrip : RE :=
  .cat (altL [litCI "seller", litCI "vendor"]) (plus colonWs)

/-- Models `\d{1,2}\/\d{1,2}\/\d{4}` (the date shape; also the inner date pattern). -/
def dateRE : RE :=
  .cat (.repCls isDigit 1 (some 2))
    (.cat (.cls (fun c => c = '/'))
      (.cat (.repCls isDigit 1 (some 2))
        (.cat (.cls (fun c => c = '/')) (.repCls isDigit 4 (some 4)))))

/-- Models `/(?:closing date|settlement date)[:\s]*(\d{1,2}\/\d{1,2}\/\d{4})/gi` -/
def reClosing : RE :=
  .cat (altL [litCI "closing date", litCI "settlement date"]) (.cat (star colonWs) dateRE)

/-- Models `/(?:execution date|signed)[:\s]*(\d{1,2}\/\d{1,2}\/\d{4})/gi` -/
def reExecution : RE :=
  .cat (altL [litCI "execution date", litCI "signed"]) (.cat (star colonWs) dateRE)

/-- Models `/(?:earnest money|deposit)[:\s]*\$?([\d,]+(?:\.\d{2})?)/gi` -/
def reEarnest : RE :=
  .cat (altL [litCI "earnest money", litCI "deposit"])
    (.cat (star colonWs) (.cat (.opt (.cls (fun c => c = '$'))) amountRE))

/-- Models `/(?:legal description|lot|block)[:\s]+([^\n\r]{20,})/gi` -/
def reLegal : RE :=
  .cat (altL [litCI "legal description", litCI "lot", litCI "block"])
    (.cat (plus colonWs) (.repCls notNL 20 none))

/-- Models `/(?:legal description)[:\s]+/gi` (the global strip on the legal match). -/
def reLegalStrip : RE :=
  .cat (litCI "legal description") (plus colonWs)

/-! ## Field extraction (ProcessContract.tsx lines 57-176) -/

/-- Models `ExtractedField` record of ProcessContract.tsx. -/
structure ExtractedField where
  field : String
  value : String
  confidence : ℚ
  originalText : Option String := none
deriving DecidableEq

/-- Property Address block: the first address pattern that matches wins;
the label prefix is stripped (`^`-anchored replace) and the result
trimmed; confidence 85. -/
def addressField (t : List Char) : Option ExtractedField :=
  ((findFirstMatch reAddr1 t).orElse (fun _ => findFirstMatch reAddr2 t)).map
    (fun m => ⟨"Property Address", String.mk (jsTrim (stripStart reAddrStrip m)), 85, none⟩)

/-- Purchase Price block: for each pattern in order, on a match run the
inner price pattern on the matched string; the first pattern whose inner
match succeeds wins; value is `"$" + amount`, confidence 90. -/
def priceField (t : List Char) : Option ExtractedField :=
  (((findFirstMatch rePrice1 t).bind innerPriceAmt).orElse
      (fun _ => (findFirstMatch rePrice2 t).bind innerPriceAmt)).map
    (fun amt => ⟨"Purchase Price", String.mk ('$' :: amt), 90, none⟩)

/-- Buyer block: global strip of the label, trim, confidence 80. -/
def buyerField (t : List Char) : Option ExtractedField :=
  (findFirstMatch reBuyer t).map
    (fun m => ⟨"Buyer Name", String.mk (jsTrim (replaceAll reBuyerStrip m)), 80, none⟩)

/-- Seller block: global strip of the label, trim, confidence 80. -/
def sellerField (t : List Char) : Option ExtractedField :=
  (findFirstMatch reSeller t).map
    (fun m => ⟨"Seller Name", String.mk (jsTrim (replaceAll reSellerStrip m)), 80, none⟩)

/-- Closing-date block (date pattern index 0): inner date match of the
outer match, confidence 75. -/
def closingField (t : List Char) : Option ExtractedField :=
  ((findFirstMatch reClosing t).bind (fun m => findFirstMatch dateRE m)).map
    (fun d => ⟨"Closing Date", String.mk d, 75, none⟩)

/-- Execution-date block (date pattern index 1): inner date match of the
outer match, confidence 75. -/
def executionField (t : List Char) : Option ExtractedField :=
  ((findFirstMatch reExecution t).bind (fun m => findFirstMatch dateRE m)).map
    (fun d => ⟨"Execution Date", String.mk d, 75, none⟩)

/-- Earnest Money block: inner price match of the outer match; value is
`"$" + amount`, confidence 85. -/
def earnestField (t : List Char) : Option ExtractedField :=
  ((findFirstMatch reEarnest t).bind innerPriceAmt).map
    (fun amt => ⟨"Earnest Money", String.mk ('$' :: amt), 85, none⟩)

/-- Legal Description block: global strip of `legal description[:\s]+`
(the `lot`/`block` labels are not stripped), trim, confidence 70. -/
def legalField (t : List Char) : Option ExtractedField :=
  (findFirstMatch reLegal t).map
    (fun m => ⟨"Legal Description", String.mk (jsTrim (replaceAll reLegalStrip m)), 70, none⟩)

/-- Models `extractFieldsFromText` (ProcessContract.tsx lines 57-176): the blocks
push their fields in source order — address, price, buyer, seller,
closing date, execution date, earnest money, legal description. -/
def extractFieldsFromText (text : String) : List ExtractedField :=
  (addressField text.data).toList ++ (priceField text.data).toList ++
  (buyerField text.data).toList ++ (sellerField text.data).toList ++
  (closingField text.data).toList ++ (executionField text.data).toList ++
  (earnestField text.data).toList ++ (legalField text.data).toList

/-- The `requiredFields` array of `processDocument` / `reprocessFields`. -/
def requiredFieldsList : List String :=
  ["Property Address", "Legal Description", "Buyer Name", "Seller Name",
   "Purchase Price", "Earnest Money", "Execution Date", "Closing Date"]

/-- One step of the required-field fill-in loop: append an empty
0-confidence entry for `n` unless an entry named `n` is already present
(the `!finalFields.find(...)` check). -/
def fillStep (acc : List ExtractedField) (n : String) : List ExtractedField :=
  if acc.any (fun f => f.field = n) then acc else acc ++ [⟨n, "", 0, none⟩]

/-- The required-field fill-in of `processDocument` (lines 258-280): for
each required name in order, append an empty 0-confidence entry unless an
entry with that name is already present. -/
def addRequiredFields (l : List ExtractedField) : List ExtractedField :=
  requiredFieldsList.foldl fillStep l

/-- Extraction followed by the required-field fill-in, as `processDocument`
composes them. -/
def processDocumentFields (text : String) : List ExtractedField :=
  addRequiredFields (extractFieldsFromText text)

/-- Models `handleFieldUpdate` (lines 319-327): entries whose name matches get the
new value and confidence 100; all others are returned unchanged. -/
def handleFieldUpdate (fieldName newValue : String) (prev : List ExtractedField) :
    List ExtractedField :=
  prev.map (fun field =>
    if field.field = fieldName
    then { field with value := newValue, confidence := 100 }
    else field)

/-- The fixed CSV header row of `exportToCSV` (lines 329-341). -/
def csvHeaders : List String :=
  ["Filename", "Property Address", "Legal Description", "Buyer", "Seller",
   "Purchase Price", "Earnest Money", "Execution Date", "Closing Date", "Notes"]

/-- Models `exportToCSV` (lines 329-351): the value row is the filename, the field
values in stored list order, then the notes; both rows are
comma-joined with every cell double-quoted, and newline-joined. -/
def exportToCSV (fileId : String) (extractedData : List ExtractedField)
    (documentNotes : String) : String :=
  let headers := csvHeaders
  let values := fileId :: (extractedData.map (fun field => field.value)) ++ [documentNotes]
  String.intercalate "\n"
    ([headers, values].map (fun row =>
      String.intercalate "," (row.map (fun field => "\"" ++ field ++ "\""))))

/-! ## The document pipeline (`processPDFWithOCR`, src/unnamed/part_001)

The environment's behavior for one page — everything that happens inside
the per-page `try` — is abstracted to an outcome: either the canvas 2d
context is unavailable (the `!context` branch, which increments
`failedPages` and `continue`s), or some stage threw (page load, render or
OCR error/timeout, caught by the page-level `catch`), or OCR completed
with a text and a confidence. -/

inductive PageOutcome where
  | surfaceUnavailable : PageOutcome
  | pageError : String → PageOutcome
  | ocr : String → ℚ → PageOutcome
deriving DecidableEq

/-- The loop accumulators of `processPDFWithOCR`:
`allText`, `totalConfidence`, `processedPages`, `failedPages`. -/
structure LoopState where
  allText : String
  totalConfidence : ℚ
  processedPages : Nat
  failedPages : Nat
deriving DecidableEq

/-- One iteration of the page loop (part_001 lines 119-260) at page number
`pageNum`:
* `!context` → `failedPages++; continue` (no text appended);
* a caught page error → append the error marker, `failedPages++`;
* OCR text nonempty after `trim()` → append the page header and text,
  accumulate confidence, `processedPages++`;
* otherwise → append the no-text marker, `failedPages++`. -/
def stepPage (st : LoopState) (pageNum : Nat) (o : PageOutcome) : LoopState :=
  match o with
  | .surfaceUnavailable => { st with failedPages := st.failedPages + 1 }
  | .pageError msg =>
    { st with
      allText := st.allText ++ "\n--- Page " ++ toString pageNum ++ " (Error: " ++ msg ++ ") ---\n"
      failedPages := st.failedPages + 1 }
  | .ocr text conf =>
    if 0 < (jsTrim text.data).length then
      { st with
        allText := st.allText ++ "\n--- Page " ++ toString pageNum ++ " ---\n" ++ text ++ "\n"
        totalConfidence := st.totalConfidence + conf
        processedPages := st.processedPages + 1 }
    else
      { st with
        allText := st.allText ++ "\n--- Page " ++ toString pageNum ++ " (No text found) ---\n"
        failedPages := st.failedPages + 1 }

/-- The page loop, `pageNum` running from `n` over the remaining pages. -/
def runPagesAux (st : LoopState) (n : Nat) : List PageOutcome → LoopState
  | [] => st
  | o :: rest => runPagesAux (stepPage st n o) (n + 1) rest

/-- The full page loop over pages 1..N with zero-initialised accumulators. -/
def runPages (pages : List PageOutcome) : LoopState :=
  runPagesAux ⟨"", 0, 0, 0⟩ 1 pages

/-- The `{ text, confidence }` result record. -/
structure AggregateResult where
  text : String
  confidence : ℚ
deriving DecidableEq

/-- A document as the pipeline sees it: the `File`'s MIME type and byte
size, whether `pdfjs` can parse it, and the per-page outcomes. -/
structure OCRFile where
  fileType : String
  size : Nat
  parseOk : Bool
  pages : List PageOutcome

/-- Models `processPDFWithOCR` (part_001 lines 62-295): validations in source
order, the page loop, and the zero-success check; error strings are the
source's messages (`NoUsableText` is the final one). -/
def processPDFWithOCR (f : OCRFile) : Except String AggregateResult :=
  if f.fileType ≠ "application/pdf" then
    .error ("Invalid file type: " ++ f.fileType ++ ". Please upload a PDF file.")
  else if 50 * 1024 * 1024 < f.size then
    .error "File too large. Please upload a PDF smaller than 50MB."
  else if !f.parseOk then
    .error "Failed to parse PDF. The file may be corrupted or password-protected."
  else if f.pages.length = 0 then
    .error "PDF contains no pages."
  else if 20 < f.pages.length then
    .error "PDF has too many pages (limit: 20). Please upload a smaller document."
  else
    let st := runPages f.pages
    let averageConfidence := if 0 < st.processedPages then st.totalConfidence / st.processedPages else 0
    if st.processedPages = 0 then
      .error "Failed to extract text from any pages. The PDF may contain only images or be corrupted."
    else
      .ok ⟨st.allText, averageConfidence⟩

/-- A page succeeds exactly when OCR completed and its text is nonempty
after `trim()` (the branch that increments `processedPages`). -/
def isSuccess : PageOutcome → Bool
  | .ocr text _ => decide (0 < (jsTrim text.data).length)
  | _ => false

/-- K, the number of successfully recognized pages. -/
def countSuccess (pages : List PageOutcome) : Nat :=
  (pages.filter isSuccess).length

/-- The confidence reported by a page outcome (0 when no OCR result). -/
def confOf : PageOutcome → ℚ
  | .ocr _ c => c
  | _ => 0

/-- Sum of per-page confidences over the successful pages. -/
def sumConf (pages : List PageOutcome) : ℚ :=
  ((pages.filter isSuccess).map confOf).sum

/-- The text fragment page `pageNum` contributes to `allText`: nothing for
the `!context` skip, otherwise a marker-led fragment. -/
def pageFragment (pageNum : Nat) : PageOutcome → String
  | .surfaceUnavailable => ""
  | .pageError msg => "\n--- Page " ++ toString pageNum ++ " (Error: " ++ msg ++ ") ---\n"
  | .ocr text _ =>
    if 0 < (jsTrim text.data).length then
      "\n--- Page " ++ toString pageNum ++ " ---\n" ++ text ++ "\n"
    else
      "\n--- Page " ++ toString pageNum ++ " (No text found) ---\n"

/-- Count of (possibly overlapping) occurrences of `pat` in `l`. -/
def countOcc (pat l : List Char) : Nat :=
  ((List.range (l.length + 1)).filter (fun i => pat.isPrefixOf (l.drop i))).length

/-! ## The blank-raster diagnostic (src/unnamed/part_000)

A canvas is modelled by whether `getContext('2d')` succeeds and by its
`ImageData.data` channel bytes (RGBA, row-major). -/

structure Canvas where
  hasContext : Bool
  data : List Nat

/-- Models `isCanvasBlank` (part_000 lines 602-608): no 2d context counts as
blank; otherwise every channel byte must be 0. -/
def isCanvasBlank (c : Canvas) : Bool :=
  if !c.hasContext then true
  else c.data.all (fun pixel => pixel = 0)

/-- The background fill of the rendering loop (part_000 lines 707-708):
`fillStyle = 'white'; fillRect(0, 0, width, height)` sets every RGBA
channel byte to 255. -/
def fillWhite (c : Canvas) : Canvas :=
  { c with data := c.data.map (fun _ => 255) }

/-! ## Concrete example inputs used by witnesses and counterexamples -/

/-- A valid PDF whose two pages both fail (a load timeout and a
whitespace-only OCR result): K = 0. -/
def fileAllFail : OCRFile :=
  ⟨"application/pdf", 1000, true, [.pageError "Timeout loading page 1", .ocr "   " 50]⟩

/-- A valid PDF with three pages of which two succeed (confidences 80 and
60) and one throws: K = 2, N = 3. -/
def fileTwoOfThree : OCRFile :=
  ⟨"application/pdf", 1000, true, [.ocr "hello" 80, .pageError "boom", .ocr "world" 60]⟩

/-- A valid PDF whose first page succeeds and whose second page hits the
`!context` branch (drawing surface unavailable). -/
def fileCtxSkip : OCRFile :=
  ⟨"application/pdf", 1000, true, [.ocr "hello" 80, .surfaceUnavailable]⟩

/-- A valid PDF with one success, one caught page error, and one
`!context` skip. -/
def fileMixed : OCRFile :=
  ⟨"application/pdf", 1000, true, [.ocr "hello" 80, .pageError "boom", .surfaceUnavailable]⟩

/-- A canvas with a 2d context whose raster is one opaque-white pixel —
exactly the background fill the pipeline paints before rendering. -/
def whiteCanvas : Canvas := ⟨true, [255, 255, 255, 255]⟩

/-- The in-order concatenation of the per-page text fragments, page
numbers running from `n`. -/
def docTextAux (n : Nat) : List PageOutcome → String
  | [] => ""
  | o :: rest => pageFragment n o ++ docTextAux (n + 1) rest

/-- Number of entries of `l` whose field name is `n`. -/
def countField (n : String) (l : List ExtractedField) : Nat :=
  (l.filter (fun f => f.field = n)).length

/-- Whether some entry of `l` is named `n` (the `find` membership test). -/
def hasField (n : String) (l : List ExtractedField) : Bool :=
  l.any (fun f => f.field = n)

/-- One CSV line: the cells double-quoted and comma-joined. -/
def quotedLine (row : List String) : String :=
  String.intercalate "," (row.map (fun field => "\"" ++ field ++ "\""))

/-- The round-trip text of the spec. -/
def ppRoundText : String := "Purchase Price: $1,250,000.00"

/-- A text containing the round-trip phrase, preceded by an earlier
labeled-price match. -/
def ppEarlierText : String := "Total Price: 3 Purchase Price: $1,250,000.00"

/-- A text matching only the purchase-price pattern. -/
def pp5Text : String := "Purchase Price: $5"

/-- A text matching only the closing-date pattern. -/
def closingOnlyText : String := "Closing Date: 04/30/2025"

/-- A concrete field list for exercising the manual-edit handler. -/
def sampleFields : List ExtractedField :=
  [⟨"Buyer Name", "John", 80, none⟩, ⟨"Seller Name", "Jane", 80, some "Seller: Jane"⟩]

/-! # Helper lemmas -/

theorem countSuccess_cons (o : PageOutcome) (rest : List PageOutcome) :
    countSuccess (o :: rest) = (if isSuccess o then 1 else 0) + countSuccess rest := by
  by_cases h : isSuccess o <;> simp [countSuccess, List.filter_cons, h, Nat.add_comm]

theorem sumConf_cons (o : PageOutcome) (rest : List PageOutcome) :
    sumConf (o :: rest) = (if isSuccess o then confOf o else 0) + sumConf rest := by
  by_cases h : isSuccess o <;> simp [sumConf, List.filter_cons, h]

theorem stepPage_processedPages (st : LoopState) (n : Nat) (o : PageOutcome) :
    (stepPage st n o).processedPages = st.processedPages + (if isSuccess o then 1 else 0) := by
  cases o with
  | surfaceUnavailable => simp [stepPage, isSuccess]
  | pageError msg => simp [stepPage, isSuccess]
  | ocr text conf =>
    by_cases h : 0 < (jsTrim text.data).length <;> simp [stepPage, isSuccess, h]

theorem stepPage_totalConfidence (st : LoopState) (n : Nat) (o : PageOutcome) :
    (stepPage st n o).totalConfidence
      = st.totalConfidence + (if isSuccess o then confOf o else 0) := by
  cases o with
  | surfaceUnavailable => simp [stepPage, isSuccess]
  | pageError msg => simp [stepPage, isSuccess]
  | ocr text conf =>
    by_cases h : 0 < (jsTrim text.data).length <;> simp [stepPage, isSuccess, confOf, h]

theorem stepPage_allText (st : LoopState) (n : Nat) (o : PageOutcome) :
    (stepPage st n o).allText = st.allText ++ pageFragment n o := by
  cases o with
  | surfaceUnavailable => simp [stepPage, pageFragment]
  | pageError msg => simp [stepPage, pageFragment, String.append_assoc]
  | ocr text conf =>
    by_cases h : 0 < (jsTrim text.data).length <;>
      simp [stepPage, pageFragment, h, String.append_assoc]

/-- Loop invariant of `runPagesAux`: the accumulators grow by the number
of successes, the sum of their confidences, and the concatenated page
fragments. -/
theorem runPagesAux_spec (l : List PageOutcome) : ∀ (st : LoopState) (n : Nat),
    (runPagesAux st n l).processedPages = st.processedPages + countSuccess l ∧
    (runPagesAux st n l).totalConfidence = st.totalConfidence + sumConf l ∧
    (runPagesAux st n l).allText = st.allText ++ docTextAux n l := by
  induction l with
  | nil =>
    intro st n
    simp [runPagesAux, countSuccess, sumConf, docTextAux]
  | cons o rest ih =>
    intro st n
    obtain ⟨h1, h2, h3⟩ := ih (stepPage st n o) (n + 1)
    refine ⟨?_, ?_, ?_⟩
    · rw [runPagesAux, h1, stepPage_processedPages, countSuccess_cons]
      omega
    · rw [runPagesAux, h2, stepPage_totalConfidence, sumConf_cons]
      ring
    · rw [runPagesAux, h3, stepPage_allText, docTextAux, String.append_assoc]

theorem runPages_processedPages (pages : List PageOutcome) :
    (runPages pages).processedPages = countSuccess pages := by
  simpa using (runPagesAux_spec pages ⟨"", 0, 0, 0⟩ 1).1

theorem runPages_totalConfidence (pages : List PageOutcome) :
    (runPages pages).totalConfidence = sumConf pages := by
  simpa using (runPagesAux_spec pages ⟨"", 0, 0, 0⟩ 1).2.1

theorem runPages_allText (pages : List PageOutcome) :
    (runPages pages).allText = docTextAux 1 pages := by
  have h := (runPagesAux_spec pages ⟨"", 0, 0, 0⟩ 1).2.2
  simpa using h

/-- Every page fragment other than the `!context` skip starts with the
ascending page marker `"\n--- Page <n>"`. -/
theorem pageFragment_marker (n : Nat) (o : PageOutcome) (h : o ≠ .surfaceUnavailable) :
    ∃ rest, pageFragment n o = "\n--- Page " ++ toString n ++ rest := by
  cases o with
  | surfaceUnavailable => exact absurd rfl h
  | pageError msg =>
    exact ⟨" (Error: " ++ msg ++ ") ---\n", by simp [pageFragment, String.append_assoc]⟩
  | ocr text conf =>
    by_cases ht : 0 < (jsTrim text.data).length
    · exact ⟨" ---\n" ++ text ++ "\n", by simp [pageFragment, ht, String.append_assoc]⟩
    · exact ⟨" (No text found) ---\n", by simp [pageFragment, ht, String.append_assoc]⟩

/-! ## Extractor helper lemmas -/

theorem countField_append (n : String) (l1 l2 : List ExtractedField) :
    countField n (l1 ++ l2) = countField n l1 + countField n l2 := by
  simp [countField, List.filter_append]

theorem countField_optToList (o : Option ExtractedField) (m n : String)
    (hm : ∀ f, o = some f → f.field = m) :
    countField n o.toList = if m = n ∧ o.isSome then 1 else 0 := by
  cases o with
  | none => simp [countField]
  | some f =>
    have hf : f.field = m := hm f rfl
    subst hf
    by_cases h : f.field = n <;> simp [countField, h]

theorem hasField_iff (n : String) (l : List ExtractedField) :
    hasField n l = true ↔ 0 < countField n l := by
  rw [countField, ← List.countP_eq_length_filter, List.countP_pos]
  simp [hasField, List.any_eq_true]

theorem hasField_false_count (n : String) (l : List ExtractedField)
    (h : hasField n l = false) : countField n l = 0 := by
  by_contra hne
  have hpos : 0 < countField n l := Nat.pos_of_ne_zero hne
  rw [(hasField_iff n l).2 hpos] at h
  cases h

theorem countField_fillStep (l : List ExtractedField) (m n : String) :
    countField n (fillStep l m)
      = countField n l + (if hasField m l = false ∧ m = n then 1 else 0) := by
  rw [fillStep, show (l.any fun f => f.field = m) = hasField m l from rfl]
  cases hb : hasField m l
  · rw [if_neg (by simp [hb])]
    rw [countField_append]
    by_cases h : m = n
    · subst h
      simp [countField, hb]
    · simp [countField, h, hb]
  · simp [hb]

theorem hasField_fillStep_of_ne (l : List ExtractedField) (m n : String) (hne : m ≠ n) :
    hasField n (fillStep l m) = hasField n l := by
  rw [fillStep, show (l.any fun f => f.field = m) = hasField m l from rfl]
  cases hb : hasField m l
  · rw [if_neg (by simp [hb])]
    rw [hasField, hasField, List.any_append]
    have h1 : (List.any [(⟨m, "", 0, none⟩ : ExtractedField)] fun f => f.field = n) = false := by
      simp [hne]
    rw [h1, Bool.or_false]
  · rw [if_pos (by simp [hb])]

theorem mem_fillStep (l : List ExtractedField) (m : String) (f : ExtractedField)
    (h : f ∈ fillStep l m) : f ∈ l ∨ f.field = m := by
  rw [fillStep] at h
  split at h
  · exact Or.inl h
  · rcases List.mem_append.1 h with h2 | h2
    · exact Or.inl h2
    · right
      have : f = ⟨m, "", 0, none⟩ := by simpa using h2
      rw [this]

theorem countField_foldl_notmem (names : List String) : ∀ (l : List ExtractedField) (n : String),
    n ∉ names → countField n (names.foldl fillStep l) = countField n l := by
  induction names with
  | nil => intro l n _; rfl
  | cons m ms ih =>
    intro l n h
    rw [List.foldl_cons, ih (fillStep l m) n (fun hm => h (List.mem_cons_of_mem m hm)),
      countField_fillStep]
    have hmn : ¬(m = n) := fun he => h (he ▸ List.mem_cons_self m ms)
    simp [hmn]

theorem countField_foldl_mem (names : List String) : ∀ (l : List ExtractedField) (n : String),
    names.Nodup → n ∈ names → countField n l ≤ 1 →
    countField n (names.foldl fillStep l) = 1 := by
  induction names with
  | nil => intro l n _ h _; exact absurd h (List.not_mem_nil n)
  | cons m ms ih =>
    intro l n hnd hmem hle
    rw [List.foldl_cons]
    rcases List.mem_cons.1 hmem with rfl | hms
    · have hnin : n ∉ ms := (List.nodup_cons.1 hnd).1
      rw [countField_foldl_notmem ms (fillStep l n) n hnin, countField_fillStep]
      cases hb : hasField n l
      · have h0 := hasField_false_count n l hb
        simp [hb, h0]
      · have hpos := (hasField_iff n l).1 hb
        have h1 : countField n l = 1 := by omega
        simp [hb, h1]
    · have hmn : ¬(m = n) := by
        rintro rfl
        exact (List.nodup_cons.1 hnd).1 hms
      exact ih (fillStep l m) n (List.nodup_cons.1 hnd).2 hms
        (by simpa [countField_fillStep, hmn] using hle)

theorem mem_foldl_fillStep (names : List String) : ∀ (l : List ExtractedField) (f : ExtractedField),
    f ∈ names.foldl fillStep l → f ∈ l ∨ f.field ∈ names := by
  induction names with
  | nil => intro l f h; exact Or.inl h
  | cons m ms ih =>
    intro l f h
    rw [List.foldl_cons] at h
    rcases ih (fillStep l m) f h with h2 | h2
    · rcases mem_fillStep l m f h2 with h3 | h3
      · exact Or.inl h3
      · exact Or.inr (h3 ▸ List.mem_cons_self m ms)
    · exact Or.inr (List.mem_cons_of_mem m h2)

theorem foldl_fillStep_extends (names : List String) : ∀ l : List ExtractedField,
    ∃ s, names.foldl fillStep l = l ++ s := by
  induction names with
  | nil => intro l; exact ⟨[], by simp⟩
  | cons m ms ih =>
    intro l
    obtain ⟨s, hs⟩ := ih (fillStep l m)
    rw [List.foldl_cons, hs, fillStep]
    split
    · exact ⟨s, rfl⟩
    · exact ⟨⟨m, "", 0, none⟩ :: s, by rw [List.append_assoc]; rfl⟩

/-- Partition: when every entry's name lies in a duplicate-free name list,
the length is the sum of the per-name counts. -/
theorem length_eq_sum_countField : ∀ (names : List String) (l : List ExtractedField),
    names.Nodup → (∀ f ∈ l, f.field ∈ names) →
    (names.map (fun n => countField n l)).sum = l.length := by
  intro names
  induction names with
  | nil =>
    intro l _ hcov
    have hnil : l = [] :=
      List.eq_nil_iff_forall_not_mem.2 (fun f hf => absurd (hcov f hf) (List.not_mem_nil _))
    subst hnil
    rfl
  | cons m ms ih =>
    intro l hnd hcov
    rw [List.map_cons, List.sum_cons]
    have hperm := List.filter_append_perm (fun f => decide (f.field = m)) l
    have hlen : countField m l + (l.filter (fun f => !decide (f.field = m))).length = l.length := by
      have := hperm.length_eq
      simpa [countField, List.length_append] using this
    have hcov2 : ∀ f ∈ l.filter (fun f => !decide (f.field = m)), f.field ∈ ms := by
      intro f hf
      have hmem := List.mem_of_mem_filter hf
      have hne : ¬(f.field = m) := by simpa using List.of_mem_filter hf
      rcases List.mem_cons.1 (hcov f hmem) with h | h
      · exact absurd h hne
      · exact h
    have hih := ih (l.filter (fun f => !decide (f.field = m))) (List.nodup_cons.1 hnd).2 hcov2
    have hcount : ∀ n ∈ ms, countField n (l.filter (fun f => !decide (f.field = m)))
        = countField n l := by
      intro n hn
      have hmn : ¬(n = m) := by
        rintro rfl
        exact (List.nodup_cons.1 hnd).1 hn
      rw [countField, countField, List.filter_filter]
      congr 1
      apply List.filter_congr
      intro f _
      by_cases h : f.field = n <;> simp [h, hmn]
    have hmap : ms.map (fun n => countField n (l.filter (fun f => !decide (f.field = m))))
        = ms.map (fun n => countField n l) :=
      List.map_congr_left hcount
    rw [hmap] at hih
    rw [hih]
    exact hlen

/-- An `Option.map` that builds a record with a fixed name only returns
entries with that name. -/
theorem field_of_optMap {α : Type} {o : Option α} {g : α → ExtractedField} {n : String}
    (hg : ∀ x, (g x).field = n) : ∀ f, o.map g = some f → f.field = n := by
  intro f h
  rcases o with _ | x
  · exact Option.noConfusion h
  · have hx : g x = f := by simpa using h
    rw [← hx]
    exact hg x

theorem mem_toList_field {o : Option ExtractedField} {m : String}
    (hm : ∀ f, o = some f → f.field = m) : ∀ f ∈ o.toList, f.field = m := by
  intro f hf
  exact hm f (Option.mem_def.1 (Option.mem_toList.1 hf))

theorem addressField_field (t : List Char) :
    ∀ f, addressField t = some f → f.field = "Property Address" :=
  field_of_optMap (fun _ => rfl)

theorem priceField_field (t : List Char) :
    ∀ f, priceField t = some f → f.field = "Purchase Price" :=
  field_of_optMap (fun _ => rfl)

theorem buyerField_field (t : List Char) :
    ∀ f, buyerField t = some f → f.field = "Buyer Name" :=
  field_of_optMap (fun _ => rfl)

theorem sellerField_field (t : List Char) :
    ∀ f, sellerField t = some f → f.field = "Seller Name" :=
  field_of_optMap (fun _ => rfl)

theorem closingField_field (t : List Char) :
    ∀ f, closingField t = some f → f.field = "Closing Date" :=
  field_of_optMap (fun _ => rfl)

theorem executionField_field (t : List Char) :
    ∀ f, executionField t = some f → f.field = "Execution Date" :=
  field_of_optMap (fun _ => rfl)

theorem earnestField_field (t : List Char) :
    ∀ f, earnestField t = some f → f.field = "Earnest Money" :=
  field_of_optMap (fun _ => rfl)

theorem legalField_field (t : List Char) :
    ∀ f, legalField t = some f → f.field = "Legal Description" :=
  field_of_optMap (fun _ => rfl)

/-- Per-name count of the raw extraction output: each block contributes
its entry exactly when its name matches and its matcher fired. -/
theorem countField_extract (t : String) (n : String) :
    countField n (extractFieldsFromText t) =
      (if "Property Address" = n ∧ (addressField t.data).isSome then 1 else 0) +
      ((if "Purchase Price" = n ∧ (priceField t.data).isSome then 1 else 0) +
      ((if "Buyer Name" = n ∧ (buyerField t.data).isSome then 1 else 0) +
      ((if "Seller Name" = n ∧ (sellerField t.data).isSome then 1 else 0) +
      ((if "Closing Date" = n ∧ (closingField t.data).isSome then 1 else 0) +
      ((if "Execution Date" = n ∧ (executionField t.data).isSome then 1 else 0) +
      ((if "Earnest Money" = n ∧ (earnestField t.data).isSome then 1 else 0) +
      (if "Legal Description" = n ∧ (legalField t.data).isSome then 1 else 0))))))) := by
  rw [extractFieldsFromText]
  simp only [countField_append]
  rw [countField_optToList _ _ _ (addressField_field t.data),
    countField_optToList _ _ _ (priceField_field t.data),
    countField_optToList _ _ _ (buyerField_field t.data),
    countField_optToList _ _ _ (sellerField_field t.data),
    countField_optToList _ _ _ (closingField_field t.data),
    countField_optToList _ _ _ (executionField_field t.data),
    countField_optToList _ _ _ (earnestField_field t.data),
    countField_optToList _ _ _ (legalField_field t.data)]
  ring

theorem countField_extract_le_one (t : String) (n : String) (hn : n ∈ requiredFieldsList) :
    countField n (extractFieldsFromText t) ≤ 1 := by
  fin_cases hn <;> rw [countField_extract] <;> simp <;> split <;> omega

theorem mem_extract_required (t : String) :
    ∀ f ∈ extractFieldsFromText t, f.field ∈ requiredFieldsList := by
  intro f hf
  rw [extractFieldsFromText] at hf
  simp only [List.mem_append] at hf
  rcases hf with (((((((h | h) | h) | h) | h) | h) | h) | h)
  · rw [mem_toList_field (addressField_field t.data) f h]; decide
  · rw [mem_toList_field (priceField_field t.data) f h]; decide
  · rw [mem_toList_field (buyerField_field t.data) f h]; decide
  · rw [mem_toList_field (sellerField_field t.data) f h]; decide
  · rw [mem_toList_field (closingField_field t.data) f h]; decide
  · rw [mem_toList_field (executionField_field t.data) f h]; decide
  · rw [mem_toList_field (earnestField_field t.data) f h]; decide
  · rw [mem_toList_field (legalField_field t.data) f h]; decide

/-! # Claim theorems -/

/-- C1: for every document that reaches the page loop (a valid,
parseable PDF within the size and page limits) on which zero pages are
successfully recognized (K = 0), `processPDFWithOCR` fails with the
`NoUsableText` error instead of returning an aggregate result. -/
theorem C1_zero_success_noUsableText (f : OCRFile)
    (hType : f.fileType = "application/pdf")
    (hSize : f.size ≤ 50 * 1024 * 1024)
    (hParse : f.parseOk = true)
    (hNonempty : f.pages.length ≠ 0)
    (hCount : f.pages.length ≤ 20)
    (hK : countSuccess f.pages = 0) :
    processPDFWithOCR f =
      .error "Failed to extract text from any pages. The PDF may contain only images or be corrupted." := by
  have hp : (runPages f.pages).processedPages = 0 := by
    rw [runPages_processedPages, hK]
  simp [processPDFWithOCR, hType, hParse, Nat.not_lt.mpr hSize, hNonempty,
    Nat.not_lt.mpr hCount, hp]

/-- Witness for C1 at a concrete two-page document whose pages fail with
a caught error and a whitespace-only OCR result. -/
theorem C1_zero_success_noUsableText_witness :
    countSuccess fileAllFail.pages = 0 ∧
    processPDFWithOCR fileAllFail =
      .error "Failed to extract text from any pages. The PDF may contain only images or be corrupted." :=
  ⟨by decide,
   C1_zero_success_noUsableText fileAllFail rfl (by decide) rfl (by decide) (by decide) (by decide)⟩

/-- Shared helper: a document that reaches the page loop with at least
one success returns an aggregate whose confidence is the mean over the
successful pages and whose text is the concatenated page fragments. -/
theorem processPDFWithOCR_ok_spec (f : OCRFile)
    (hType : f.fileType = "application/pdf")
    (hSize : f.size ≤ 50 * 1024 * 1024)
    (hParse : f.parseOk = true)
    (hCount : f.pages.length ≤ 20)
    (hK : 1 ≤ countSuccess f.pages) :
    ∃ r, processPDFWithOCR f = .ok r ∧
      r.confidence = sumConf f.pages / (countSuccess f.pages : ℚ) ∧
      r.text = docTextAux 1 f.pages := by
  have hp : (runPages f.pages).processedPages = countSuccess f.pages :=
    runPages_processedPages f.pages
  have hNonempty : f.pages.length ≠ 0 := by
    intro h0
    rw [List.length_eq_zero] at h0
    rw [h0] at hK
    simp [countSuccess] at hK
  have hne : (runPages f.pages).processedPages ≠ 0 := by omega
  refine ⟨⟨(runPages f.pages).allText,
           (runPages f.pages).totalConfidence / ((runPages f.pages).processedPages : ℚ)⟩, ?_, ?_, ?_⟩
  · simp [processPDFWithOCR, hType, hParse, Nat.not_lt.mpr hSize, hNonempty,
      Nat.not_lt.mpr hCount, hne, Nat.pos_of_ne_zero hne]
  · rw [runPages_totalConfidence, hp]
  · exact runPages_allText f.pages

/-- C2: for every document that reaches the page loop with at least one
successfully recognized page (1 ≤ K ≤ N), `processPDFWithOCR` returns a
result (no throw) whose confidence is the arithmetic mean of the per-page
confidences over only the K successful pages — failed or empty-text pages
are excluded from the denominator, not scored as zero. -/
theorem C2_mean_over_successes (f : OCRFile)
    (hType : f.fileType = "application/pdf")
    (hSize : f.size ≤ 50 * 1024 * 1024)
    (hParse : f.parseOk = true)
    (hCount : f.pages.length ≤ 20)
    (hK : 1 ≤ countSuccess f.pages) :
    ∃ r, processPDFWithOCR f = .ok r ∧
      r.confidence = sumConf f.pages / (countSuccess f.pages : ℚ) ∧
      r.text = docTextAux 1 f.pages :=
  processPDFWithOCR_ok_spec f hType hSize hParse hCount hK

/-- Witness for C2 at a concrete three-page document with two successes
(confidences 80 and 60) and one failure: the mean is 70. -/
theorem C2_mean_over_successes_witness :
    1 ≤ countSuccess fileTwoOfThree.pages ∧
    sumConf fileTwoOfThree.pages / (countSuccess fileTwoOfThree.pages : ℚ) = 70 ∧
    ∃ r, processPDFWithOCR fileTwoOfThree = .ok r ∧
      r.confidence = sumConf fileTwoOfThree.pages / (countSuccess fileTwoOfThree.pages : ℚ) ∧
      r.text = docTextAux 1 fileTwoOfThree.pages := by
  have hf : fileTwoOfThree.pages.filter isSuccess = [.ocr "hello" 80, .ocr "world" 60] := by
    decide
  have hs : sumConf fileTwoOfThree.pages = 140 := by
    rw [sumConf, hf]
    norm_num [confOf]
  have hc : countSuccess fileTwoOfThree.pages = 2 := by
    rw [countSuccess, hf]
    rfl
  refine ⟨by omega, by rw [hs, hc]; norm_num, ?_⟩
  exact C2_mean_over_successes fileTwoOfThree rfl (by decide) rfl (by decide) (by omega)

/-- C3 counterexample: on a valid two-page document whose second page
hits the `!context` (drawing-surface-unavailable) branch, processing
returns an aggregate text containing only ONE page marker — not the
claimed N = 2 — because that failure branch `continue`s without
appending any marker for the failed page. -/
theorem C3_counterexample :
    fileCtxSkip.pages.length = 2 ∧
    processPDFWithOCR fileCtxSkip = .ok ⟨"\n--- Page 1 ---\nhello\n", 80⟩ ∧
    countOcc "\n--- Page ".data ("\n--- Page 1 ---\nhello\n").data = 1 ∧
    countOcc "Page 2".data ("\n--- Page 1 ---\nhello\n").data = 0 := by
  refine ⟨rfl, ?_, by decide, by decide⟩
  have hf : List.filter isSuccess [PageOutcome.ocr "hello" 80, PageOutcome.surfaceUnavailable]
      = [.ocr "hello" 80] := by decide
  have hp : (runPages [PageOutcome.ocr "hello" 80, PageOutcome.surfaceUnavailable]).processedPages
      = 1 := by
    rw [runPages_processedPages, countSuccess, hf]
    rfl
  have hc : (runPages [PageOutcome.ocr "hello" 80, PageOutcome.surfaceUnavailable]).totalConfidence
      = 80 := by
    rw [runPages_totalConfidence, sumConf, hf]
    norm_num [confOf]
  have ht : (runPages [PageOutcome.ocr "hello" 80, PageOutcome.surfaceUnavailable]).allText
      = "\n--- Page 1 ---\nhello\n" := by
    rw [runPages_allText]
    decide
  simp [processPDFWithOCR, fileCtxSkip, hp, hc, ht]

/-- C3 amended: for every document that reaches the page loop with K ≥ 1,
processing returns; its text is the in-order concatenation of one
fragment per page, where every caught page failure and every no-text page
contributes a marker led by its ascending page number — but a page whose
2d drawing context is unavailable is skipped with an empty fragment (no
marker), while later pages still process. -/
theorem C3_amended_markers (f : OCRFile)
    (hType : f.fileType = "application/pdf")
    (hSize : f.size ≤ 50 * 1024 * 1024)
    (hParse : f.parseOk = true)
    (hCount : f.pages.length ≤ 20)
    (hK : 1 ≤ countSuccess f.pages) :
    (∃ r, processPDFWithOCR f = .ok r ∧ r.text = docTextAux 1 f.pages) ∧
    (∀ (n : Nat) (o : PageOutcome),
      (o = .surfaceUnavailable → pageFragment n o = "") ∧
      (o ≠ .surfaceUnavailable →
        ∃ rest, pageFragment n o = "\n--- Page " ++ toString n ++ rest)) := by
  obtain ⟨r, hr, _, htext⟩ := processPDFWithOCR_ok_spec f hType hSize hParse hCount hK
  refine ⟨⟨r, hr, htext⟩, ?_⟩
  intro n o
  constructor
  · rintro rfl
    rfl
  · exact pageFragment_marker n o

/-- Witness for the amended C3 at a concrete document with one success,
one caught error, and one context-unavailable skip. -/
theorem C3_amended_markers_witness :
    1 ≤ countSuccess fileMixed.pages ∧
    docTextAux 1 fileMixed.pages = "\n--- Page 1 ---\nhello\n\n--- Page 2 (Error: boom) ---\n" ∧
    (∃ r, processPDFWithOCR fileMixed = .ok r ∧ r.text = docTextAux 1 fileMixed.pages) :=
  ⟨by decide, by decide,
   (C3_amended_markers fileMixed rfl (by decide) rfl (by decide) (by decide)).1⟩

/-- C4 counterexample: the output order is NOT a stable fixed order
independent of which patterns matched — a text matching only the
closing-date pattern puts Closing Date first (matched fields are pushed
before the fill-ins), while the empty text yields the required-field
order. -/
theorem C4_counterexample :
    (processDocumentFields closingOnlyText).map (fun f => f.field) =
      ["Closing Date", "Property Address", "Legal Description", "Buyer Name", "Seller Name",
       "Purchase Price", "Earnest Money", "Execution Date"] ∧
    (processDocumentFields "").map (fun f => f.field) = requiredFieldsList ∧
    (processDocumentFields closingOnlyText).map (fun f => f.field) ≠
      (processDocumentFields "").map (fun f => f.field) := by
  decide

/-- C4 amended: for every input text, extraction followed by the
required-field fill-in yields exactly 8 entries, exactly one per required
field name; the order, however, depends on which patterns matched
(matched fields first in pattern-group order, unmatched ones appended in
required order). -/
theorem C4_amended_eight_entries (t : String) :
    (processDocumentFields t).length = 8 ∧
    ∀ n ∈ requiredFieldsList, countField n (processDocumentFields t) = 1 := by
  have hnd : requiredFieldsList.Nodup := by decide
  have hcov := mem_extract_required t
  have hone : ∀ n ∈ requiredFieldsList, countField n (processDocumentFields t) = 1 := by
    intro n hn
    have h := countField_foldl_mem requiredFieldsList (extractFieldsFromText t) n hnd hn
      (countField_extract_le_one t n hn)
    simpa [processDocumentFields, addRequiredFields] using h
  refine ⟨?_, hone⟩
  have hcovFinal : ∀ f ∈ processDocumentFields t, f.field ∈ requiredFieldsList := by
    intro f hf
    have hf2 : f ∈ requiredFieldsList.foldl fillStep (extractFieldsFromText t) := by
      simpa [processDocumentFields, addRequiredFields] using hf
    rcases mem_foldl_fillStep requiredFieldsList (extractFieldsFromText t) f hf2 with h | h
    · exact hcov f h
    · exact h
  have hpart := length_eq_sum_countField requiredFieldsList (processDocumentFields t) hnd hcovFinal
  rw [← hpart, List.map_congr_left hone]
  decide

/-- Witness for the amended C4 at a concrete text matching only the
closing-date pattern. -/
theorem C4_amended_eight_entries_witness :
    (processDocumentFields closingOnlyText).length = 8 ∧
    countField "Purchase Price" (processDocumentFields closingOnlyText) = 1 :=
  ⟨(C4_amended_eight_entries closingOnlyText).1,
   (C4_amended_eight_entries closingOnlyText).2 "Purchase Price" (by decide)⟩

/-- C5 counterexample: the CSV value row takes the field values in stored
list order, so when a pattern matched (here Purchase Price on
`"Purchase Price: $5"`) the extracted value `"$5"` lands in the column
under the header `Property Address`, while the `Purchase Price` column
holds the empty string — values do not appear in the columns of their
corresponding headers. -/
theorem C5_counterexample :
    (processDocumentFields pp5Text).map (fun f => f.field) =
      ["Purchase Price", "Property Address", "Legal Description", "Buyer Name", "Seller Name",
       "Earnest Money", "Execution Date", "Closing Date"] ∧
    csvHeaders[1]? = some "Property Address" ∧
    ("file1" :: (processDocumentFields pp5Text).map (fun f => f.value) ++ ["notes1"])[1]?
      = some "$5" ∧
    csvHeaders[5]? = some "Purchase Price" ∧
    ("file1" :: (processDocumentFields pp5Text).map (fun f => f.value) ++ ["notes1"])[5]?
      = some "" ∧
    exportToCSV "file1" (processDocumentFields pp5Text) "notes1" =
      "\"Filename\",\"Property Address\",\"Legal Description\",\"Buyer\",\"Seller\",\"Purchase Price\",\"Earnest Money\",\"Execution Date\",\"Closing Date\",\"Notes\"\n\"file1\",\"$5\",\"\",\"\",\"\",\"\",\"\",\"\",\"\",\"notes1\"" := by
  set_option maxRecDepth 10000 in decide

/-- C5 amended: for every field list and notes string the CSV is the
fixed double-quoted header row followed by one double-quoted value row
holding the filename, the field values in stored list order, and the
notes; a field's value lands in the column of its corresponding header
exactly when the list is in the required-field order. -/
theorem C5_amended_csv_shape (fid : String) (l : List ExtractedField) (notes : String) :
    exportToCSV fid l notes =
      quotedLine csvHeaders ++ "\n" ++ quotedLine (fid :: l.map (fun f => f.value) ++ [notes]) ∧
    (l.map (fun f => f.field) = requiredFieldsList →
      ∀ i : Nat, i < 8 → ∃ f, l[i]? = some f ∧
        requiredFieldsList[i]? = some f.field ∧
        (fid :: l.map (fun g => g.value) ++ [notes])[i + 1]? = some f.value) := by
  constructor
  · rfl
  · intro h i hi
    have hlen : l.length = 8 := by
      have hl := congrArg List.length h
      simpa using hl
    have hfi : i < l.length := by omega
    refine ⟨l.get ⟨i, hfi⟩, ?_, ?_, ?_⟩
    · rw [List.getElem?_eq_getElem hfi]
      rfl
    · rw [← h, List.getElem?_map, List.getElem?_eq_getElem hfi]
      rfl
    · rw [List.cons_append, List.getElem?_cons_succ,
        List.getElem?_append_left (by simpa using hfi),
        List.getElem?_map, List.getElem?_eq_getElem hfi]
      rfl

/-- Witness for the amended C5 at the all-defaults field list, which is
in required order. -/
theorem C5_amended_csv_shape_witness :
    exportToCSV "file1" (processDocumentFields "") "notes1" =
      quotedLine csvHeaders ++ "\n" ++
        quotedLine ("file1" :: (processDocumentFields "").map (fun f => f.value) ++ ["notes1"]) ∧
    (∃ f, (processDocumentFields "")[0]? = some f ∧
      requiredFieldsList[0]? = some f.field ∧
      ("file1" :: (processDocumentFields "").map (fun g => g.value) ++ ["notes1"])[0 + 1]?
        = some f.value) :=
  ⟨(C5_amended_csv_shape "file1" (processDocumentFields "") "notes1").1,
   (C5_amended_csv_shape "file1" (processDocumentFields "") "notes1").2 (by decide) 0 (by decide)⟩

/-- C7: a manual field update sets every entry named `fname` to the new
value with confidence 100 regardless of its prior confidence, and
returns every other entry (name, value, confidence, original text)
unchanged — characterised position by position. -/
theorem C7_manual_update (l : List ExtractedField) (fname v : String)
    (hmem : fname ∈ l.map (fun f => f.field)) :
    (handleFieldUpdate fname v l).length = l.length ∧
    ∀ i : Nat, (handleFieldUpdate fname v l)[i]? =
      (l[i]?).map
        (fun f => if f.field = fname then { f with value := v, confidence := 100 } else f) := by
  refine ⟨by simp [handleFieldUpdate], fun i => ?_⟩
  simp [handleFieldUpdate, List.getElem?_map]

/-- Witness for C7 at a concrete two-entry list: the Buyer entry is
overwritten with confidence 100, the Seller entry is untouched. -/
theorem C7_manual_update_witness :
    "Buyer Name" ∈ sampleFields.map (fun f => f.field) ∧
    (handleFieldUpdate "Buyer Name" "Bob" sampleFields).length = sampleFields.length ∧
    (handleFieldUpdate "Buyer Name" "Bob" sampleFields)[0]? =
      some ⟨"Buyer Name", "Bob", 100, none⟩ ∧
    (handleFieldUpdate "Buyer Name" "Bob" sampleFields)[1]? =
      some ⟨"Seller Name", "Jane", 80, some "Seller: Jane"⟩ := by
  refine ⟨by decide, (C7_manual_update sampleFields "Buyer Name" "Bob" (by decide)).1, ?_, ?_⟩
  · rw [(C7_manual_update sampleFields "Buyer Name" "Bob" (by decide)).2 0]
    decide
  · rw [(C7_manual_update sampleFields "Buyer Name" "Bob" (by decide)).2 1]
    decide

/-- C8 counterexample: the text `"Total Price: 3 Purchase Price:
$1,250,000.00"` contains the round-trip substring, yet extraction yields
Purchase Price `"$3"` — the earlier `total price` alternative wins the
leftmost match. -/
theorem C8_counterexample :
    0 < countOcc ("Purchase Price: $1,250,000.00").data ppEarlierText.data ∧
    priceField ppEarlierText.data = some ⟨"Purchase Price", "$3", 90, none⟩ ∧
    extractFieldsFromText ppEarlierText = [⟨"Purchase Price", "$3", 90, none⟩] := by
  decide

/-- C8 amended: for every input text whose leftmost labeled-price-pattern
match is exactly the phrase `"Purchase Price: $1,250,000.00"` (in
particular the text consisting of that phrase), extraction yields a
Purchase Price field with value `"$1,250,000.00"` and confidence 90, and
the final output contains exactly one such entry. -/
theorem C8_amended_price_roundtrip (t : String)
    (h : findFirstMatch rePrice1 t.data = some (("Purchase Price: $1,250,000.00").data)) :
    priceField t.data = some ⟨"Purchase Price", "$1,250,000.00", 90, none⟩ ∧
    (⟨"Purchase Price", "$1,250,000.00", 90, none⟩ : ExtractedField) ∈ processDocumentFields t ∧
    countField "Purchase Price" (processDocumentFields t) = 1 := by
  have hi : innerPriceAmt (("Purchase Price: $1,250,000.00").data)
      = some (("1,250,000.00").data) := by decide
  have hp : priceField t.data = some ⟨"Purchase Price", "$1,250,000.00", 90, none⟩ := by
    rw [priceField, h]
    simp [hi]
  refine ⟨hp, ?_, ?_⟩
  · have hmemE : (⟨"Purchase Price", "$1,250,000.00", 90, none⟩ : ExtractedField)
        ∈ extractFieldsFromText t := by
      have hmem2 : (⟨"Purchase Price", "$1,250,000.00", 90, none⟩ : ExtractedField)
          ∈ (priceField t.data).toList := by
        rw [hp]
        simp
      rw [extractFieldsFromText]
      simp [List.mem_append, hmem2]
    obtain ⟨s, hs⟩ := foldl_fillStep_extends requiredFieldsList (extractFieldsFromText t)
    show _ ∈ processDocumentFields t
    rw [processDocumentFields, addRequiredFields, hs]
    exact List.mem_append_left s hmemE
  · have hE : countField "Purchase Price" (extractFieldsFromText t) = 1 := by
      rw [countField_extract]
      simp [hp]
    have h1 := countField_foldl_mem requiredFieldsList (extractFieldsFromText t)
      "Purchase Price" (by decide) (by decide) (le_of_eq hE)
    simpa [processDocumentFields, addRequiredFields] using h1

/-- Witness for the amended C8 at the round-trip text itself. -/
theorem C8_amended_price_roundtrip_witness :
    findFirstMatch rePrice1 ppRoundText.data = some (("Purchase Price: $1,250,000.00").data) ∧
    priceField ppRoundText.data = some ⟨"Purchase Price", "$1,250,000.00", 90, none⟩ ∧
    countField "Purchase Price" (processDocumentFields ppRoundText) = 1 :=
  ⟨by decide, (C8_amended_price_roundtrip ppRoundText (by decide)).1,
   (C8_amended_price_roundtrip ppRoundText (by decide)).2.2⟩

/-- C9: on the empty input text, extraction followed by the
required-field fill-in returns exactly the 8 required fields, in the
required-field list order, each with empty value and confidence 0. -/
theorem C9_empty_text_defaults :
    processDocumentFields "" =
      [⟨"Property Address", "", 0, none⟩, ⟨"Legal Description", "", 0, none⟩,
       ⟨"Buyer Name", "", 0, none⟩, ⟨"Seller Name", "", 0, none⟩,
       ⟨"Purchase Price", "", 0, none⟩, ⟨"Earnest Money", "", 0, none⟩,
       ⟨"Execution Date", "", 0, none⟩, ⟨"Closing Date", "", 0, none⟩] ∧
    (processDocumentFields "").map (fun f => f.field) = requiredFieldsList := by
  decide

/-- C10: whenever the Purchase Price or Earnest Money block extracts a
field, its value begins with `'$'` — the extractor prepends `'$'` to the
captured amount — even when the matched source text contains no dollar
sign. -/
theorem C10_dollar_prefix (t : List Char) (f : ExtractedField)
    (h : priceField t = some f ∨ earnestField t = some f) :
    f.value.data.head? = some '$' := by
  rcases h with h | h
  · rw [priceField] at h
    obtain ⟨amt, _, hf⟩ := Option.map_eq_some'.1 h
    rw [← hf]
    rfl
  · rw [earnestField] at h
    obtain ⟨amt, _, hf⟩ := Option.map_eq_some'.1 h
    rw [← hf]
    rfl

/-- Witness for C10 at `"deposit: 500"`, a text with no dollar sign whose
earnest-money match still produces the value `"$500"`. -/
theorem C10_dollar_prefix_witness :
    earnestField ("deposit: 500").data = some ⟨"Earnest Money", "$500", 85, none⟩ ∧
    (⟨"Earnest Money", "$500", 85, none⟩ : ExtractedField).value.data.head? = some '$' :=
  ⟨by decide,
   C10_dollar_prefix ("deposit: 500").data ⟨"Earnest Money", "$500", 85, none⟩
     (Or.inr (by decide))⟩

/-- C6: the blank-raster diagnostic is claimed to report a raster whose
pixels are all the background value (the opaque-white fill painted at
part_000 lines 707-708) as blank.  The code checks `pixel === 0` instead,
so an all-white raster — including any canvas right after the white
background fill — is reported as NOT blank and is passed on to
recognition; the spec's background-value check is the evident intent
(code_bug exhibit at the failing input). -/
theorem C6_white_raster_not_blank :
    isCanvasBlank whiteCanvas = false ∧
    isCanvasBlank (fillWhite ⟨true, [0, 0, 0, 0]⟩) = false ∧
    isCanvasBlank ⟨true, [0, 0, 0, 0]⟩ = true := by
  decide

end TitleVault
